import Mathlib

/-!
Shallow embedding of `src/lexical.py`, a regex-based lexical analyzer.

The Python module compiles the ordered `TOKEN_SPECIFICATION` list into one
master regular expression (an alternation of nine named groups) and
repeatedly attempts an anchored match at the current position.  Python's
alternation picks the first alternative that matches, and each alternative
here matches deterministically (greedy repetition with no ambiguity), so
every category is embedded as an explicit matcher `List Char → Option Nat`
returning the length of the match at the head of the remaining input.

Modelling notes:
  * input is `List Char`; the character classes `\d` and `\w` are modelled
    in their ASCII range (`0-9`, `A-Za-z0-9_`), which is exact for every
    input considered in the specification;
  * `.` in the Python pattern does not match a line feed (no `re.DOTALL`),
    which matters for the MISMATCH category and for `\\.` inside STRING;
  * the generator `tokenize` is embedded as a fuel-indexed total function;
    every successful match consumes at least one character, so fuel equal
    to the input length makes the fuel bound unreachable (`tokenize` below
    always supplies exactly that much fuel).
-/

namespace Lexical

/-- Token as produced by the Python `Token` dataclass:
`type` is one of the strings KEYWORD, IDENT, NUMBER, STRING, OP, PUNCT, EOF. -/
structure Token where
  type : String
  value : List Char
  line : Nat
  column : Nat
deriving DecidableEq, Repr

/-- The single error of the scanner: `SyntaxError` raised on MISMATCH,
carrying the offending character and its line and column
(`Unexpected character {value!r} at line {line} col {col}`). -/
inductive LexError where
  | unexpectedCharacter (character : Char) (line : Nat) (column : Nat)
deriving DecidableEq, Repr

/-- The nine categories of `TOKEN_SPECIFICATION`, in priority order. -/
inductive Cat where
  | NUMBER | ID | STRING | COMMENT | NEWLINE | SKIP | OP | PUNCT | MISMATCH
deriving DecidableEq, Repr

/-- `KEYWORDS` from the source, as lists of characters. -/
def KEYWORDS : List (List Char) :=
  ["if", "else", "while", "for", "return", "int", "float", "void",
   "break", "continue", "true", "false"].map String.toList

/-- Length of the leading run of decimal digits (`\d*`, greedy). -/
def digitRun (s : List Char) : Nat := (s.takeWhile Char.isDigit).length

/-- `\w` restricted to ASCII: letters, digits, underscore. -/
def isWordChar (c : Char) : Bool := c.isAlpha || c.isDigit || c == '_'

/-- NUMBER: `\d+(?:\.\d+)?` — one or more digits, then optionally a dot
followed by one or more digits (the optional part is taken exactly when a
dot with at least one digit follows the integer part). -/
def matchNumber : List Char → Option Nat
  | [] => none
  | c :: rest =>
    if c.isDigit then
      let d := 1 + digitRun rest
      match rest.drop (digitRun rest) with
      | '.' :: r2 => if 0 < digitRun r2 then some (d + 1 + digitRun r2) else some d
      | _ => some d
    else none

/-- ID: `[A-Za-z_]\w*`. -/
def matchId : List Char → Option Nat
  | [] => none
  | c :: rest =>
    if c.isAlpha || c == '_' then some (1 + (rest.takeWhile isWordChar).length)
    else none

/-- Body of a string literal after the opening quote: `(?:\\.|[^"\\])*"`.
Returns the number of characters up to and including the closing quote.
Each repetition is forced (a backslash can only start `\\.`, any other
non-quote character can only be `[^"\\]`), so the regex backtracking
semantics coincide with this deterministic scan; `\\.` fails when the
escaped character is a line feed, since `.` does not match `\n`. -/
def strBody : List Char → Option Nat
  | [] => none
  | '"' :: _ => some 1
  | '\\' :: [] => none
  | '\\' :: c :: rest =>
    if c == '\n' then none else (strBody rest).map (fun n => n + 2)
  | _ :: rest => (strBody rest).map (fun n => n + 1)

/-- STRING: `"(?:\\.|[^"\\])*"`. -/
def matchString : List Char → Option Nat
  | '"' :: rest => (strBody rest).map (fun n => n + 1)
  | _ => none

/-- Length up to and including the nearest following `*/`
(the non-greedy `[\s\S]*?\*/`). -/
def blockEnd : List Char → Option Nat
  | '*' :: '/' :: _ => some 2
  | _ :: rest => (blockEnd rest).map (fun n => n + 1)
  | [] => none

/-- COMMENT: `//[^\n]*|/\*[\s\S]*?\*/`. -/
def matchComment : List Char → Option Nat
  | '/' :: '/' :: rest => some (2 + (rest.takeWhile (fun c => c != '\n')).length)
  | '/' :: '*' :: rest => (blockEnd rest).map (fun n => n + 2)
  | _ => none

/-- NEWLINE: `\n`. -/
def matchNewline : List Char → Option Nat
  | '\n' :: _ => some 1
  | _ => none

/-- A character of the SKIP class `[ \t\r]`. -/
def skipChar (c : Char) : Bool := c == ' ' || c == '\t' || c == '\r'

/-- SKIP: `[ \t\r]+` (greedy). -/
def matchSkip (s : List Char) : Option Nat :=
  match (s.takeWhile skipChar).length with
  | 0 => none
  | k + 1 => some (k + 1)

/-- One of the two-character operators `== != <= >= ++ -- ->`. -/
def twoCharOp (a b : Char) : Bool :=
  (a == '=' && b == '=') || (a == '!' && b == '=') || (a == '<' && b == '=') ||
  (a == '>' && b == '=') || (a == '+' && b == '+') || (a == '-' && b == '-') ||
  (a == '-' && b == '>')

/-- One of the one-character operators `[+\-*/%=<>!]`. -/
def oneCharOp (a : Char) : Bool :=
  a == '+' || a == '-' || a == '*' || a == '/' || a == '%' ||
  a == '=' || a == '<' || a == '>' || a == '!'

/-- OP: `==|!=|<=|>=|\+\+|--|->|[+\-*/%=<>!]` — the two-character
alternatives are listed first, so they win over the one-character class. -/
def matchOp : List Char → Option Nat
  | [] => none
  | a :: rest =>
    match rest with
    | b :: _ =>
      if twoCharOp a b then some 2
      else if oneCharOp a then some 1
      else none
    | [] => if oneCharOp a then some 1 else none

/-- A character of the PUNCT class `[()[\]{},;.]`. -/
def punctChar (c : Char) : Bool :=
  c == '(' || c == ')' || c == '[' || c == ']' || c == '{' || c == '}' ||
  c == ',' || c == ';' || c == '.'

/-- PUNCT: `[()[\]{},;.]`. -/
def matchPunct : List Char → Option Nat
  | [] => none
  | c :: _ => if punctChar c then some 1 else none

/-- MISMATCH: `.` — any single character except a line feed. -/
def matchMismatch : List Char → Option Nat
  | [] => none
  | c :: _ => if c == '\n' then none else some 1

/-- The anchored match of the master pattern: the alternation of the nine
categories of `TOKEN_SPECIFICATION`, first matching alternative wins. -/
def masterMatch (s : List Char) : Option (Cat × Nat) :=
  match matchNumber s with
  | some n => some (Cat.NUMBER, n)
  | none =>
  match matchId s with
  | some n => some (Cat.ID, n)
  | none =>
  match matchString s with
  | some n => some (Cat.STRING, n)
  | none =>
  match matchComment s with
  | some n => some (Cat.COMMENT, n)
  | none =>
  match matchNewline s with
  | some n => some (Cat.NEWLINE, n)
  | none =>
  match matchSkip s with
  | some n => some (Cat.SKIP, n)
  | none =>
  match matchOp s with
  | some n => some (Cat.OP, n)
  | none =>
  match matchPunct s with
  | some n => some (Cat.PUNCT, n)
  | none =>
  match matchMismatch s with
  | some n => some (Cat.MISMATCH, n)
  | none => none

/-- The scan loop of `tokenize`, fuel-indexed.  `rest` is the input suffix
at absolute offset `pos`; `line` and `line_start` are the cursor state of
the source.  Every successful match consumes at least one character
(`masterMatch_pos` below), so with fuel at least the length of `rest` the
fuel-zero branch is reached only with `rest = []`, where it emits the same
terminal EOF token as the no-match branch. -/
def tokenizeF : Nat → List Char → Nat → Nat → Nat → List Token × Option LexError
  | 0, _, pos, line, line_start =>
    ([Token.mk "EOF" [] line (pos - line_start + 1)], none)
  | fuel + 1, rest, pos, line, line_start =>
    match masterMatch rest with
    | none => ([Token.mk "EOF" [] line (pos - line_start + 1)], none)
    | some (kind, n) =>
      let value := rest.take n
      let col := pos - line_start + 1
      match kind with
      | Cat.NEWLINE => tokenizeF fuel (rest.drop n) (pos + n) (line + 1) (pos + n)
      | Cat.SKIP => tokenizeF fuel (rest.drop n) (pos + n) line line_start
      | Cat.COMMENT => tokenizeF fuel (rest.drop n) (pos + n) line line_start
      | Cat.ID =>
        let next := tokenizeF fuel (rest.drop n) (pos + n) line line_start
        (Token.mk (if KEYWORDS.contains value then "KEYWORD" else "IDENT")
          value line col :: next.1, next.2)
      | Cat.NUMBER =>
        let next := tokenizeF fuel (rest.drop n) (pos + n) line line_start
        (Token.mk "NUMBER" value line col :: next.1, next.2)
      | Cat.STRING =>
        let next := tokenizeF fuel (rest.drop n) (pos + n) line line_start
        (Token.mk "STRING" value line col :: next.1, next.2)
      | Cat.OP =>
        let next := tokenizeF fuel (rest.drop n) (pos + n) line line_start
        (Token.mk "OP" value line col :: next.1, next.2)
      | Cat.PUNCT =>
        let next := tokenizeF fuel (rest.drop n) (pos + n) line line_start
        (Token.mk "PUNCT" value line col :: next.1, next.2)
      | Cat.MISMATCH =>
        ([], some (LexError.unexpectedCharacter (value.headD ' ') line col))

/-- `tokenize(code)`: the full token sequence (in emission order) together
with the error, if any, that aborted the scan.  Matches the Python
generator: tokens yielded before a `SyntaxError` are kept, and on normal
exhaustion the terminal EOF token is appended. -/
def tokenize (code : List Char) : List Token × Option LexError :=
  tokenizeF code.length code 0 1 0

/-- The input with the text matched by the NEWLINE, SKIP and COMMENT
categories deleted (whitespace and comment lexemes, as the scanner
delimits them), fuel-indexed like `tokenizeF`. -/
def strippedF : Nat → List Char → List Char
  | 0, _ => []
  | fuel + 1, rest =>
    match masterMatch rest with
    | none => []
    | some (kind, n) =>
      match kind with
      | Cat.NEWLINE => strippedF fuel (rest.drop n)
      | Cat.SKIP => strippedF fuel (rest.drop n)
      | Cat.COMMENT => strippedF fuel (rest.drop n)
      | Cat.MISMATCH => []
      | _ => rest.take n ++ strippedF fuel (rest.drop n)

/-- The input with whitespace and comment lexemes deleted. -/
def strippedInput (code : List Char) : List Char :=
  strippedF code.length code

/-- True when no scan step matches the MISMATCH category, fuel-indexed. -/
def noMismatchF : Nat → List Char → Bool
  | 0, _ => true
  | fuel + 1, rest =>
    match masterMatch rest with
    | none => true
    | some (kind, n) =>
      if kind = Cat.MISMATCH then false else noMismatchF fuel (rest.drop n)

/-- True when every anchored match of the scan is by a non-MISMATCH
category, i.e. the input has no unrecognized character. -/
def noMismatch (code : List Char) : Bool :=
  noMismatchF code.length code

/-- Concatenation of the texts of a token list, in order. -/
def concatValues : List Token → List Char
  | [] => []
  | t :: ts => t.value ++ concatValues ts

/-- Shape of every token emitted from inside the scan loop (as opposed to
the terminal EOF token): its kind is one of the six external non-EOF
kinds, its text is the nonempty matched substring, and an identifier-shaped
token is a KEYWORD exactly when its text is in `KEYWORDS`. -/
def emittedTok (t : Token) : Prop :=
  (t.type = "KEYWORD" ∨ t.type = "IDENT" ∨ t.type = "NUMBER" ∨
    t.type = "STRING" ∨ t.type = "OP" ∨ t.type = "PUNCT") ∧
  t.value ≠ [] ∧
  ((t.type = "KEYWORD" ∨ t.type = "IDENT") →
    (t.type = "KEYWORD" ↔ KEYWORDS.contains t.value = true))

theorem matchNumber_pos {s : List Char} {n : Nat}
    (h : matchNumber s = some n) : 0 < n := by
  unfold matchNumber at h
  split at h
  · exact absurd h (by simp)
  · split at h
    · split at h
      · split at h <;> (injection h with h; omega)
      · injection h with h; omega
    · exact absurd h (by simp)

theorem matchId_pos {s : List Char} {n : Nat}
    (h : matchId s = some n) : 0 < n := by
  unfold matchId at h
  split at h
  · exact absurd h (by simp)
  · split at h
    · injection h with h; omega
    · exact absurd h (by simp)

theorem matchString_pos {s : List Char} {n : Nat}
    (h : matchString s = some n) : 0 < n := by
  unfold matchString at h
  split at h
  · rcases Option.map_eq_some'.mp h with ⟨m, -, hm⟩; omega
  · exact absurd h (by simp)

theorem matchComment_pos {s : List Char} {n : Nat}
    (h : matchComment s = some n) : 0 < n := by
  unfold matchComment at h
  split at h
  · injection h with h; omega
  · rcases Option.map_eq_some'.mp h with ⟨m, -, hm⟩; omega
  · exact absurd h (by simp)

theorem matchNewline_pos {s : List Char} {n : Nat}
    (h : matchNewline s = some n) : 0 < n := by
  unfold matchNewline at h
  split at h
  · injection h with h; omega
  · exact absurd h (by simp)

theorem matchSkip_pos {s : List Char} {n : Nat}
    (h : matchSkip s = some n) : 0 < n := by
  unfold matchSkip at h
  split at h
  · exact absurd h (by simp)
  · injection h with h; omega

theorem matchOp_pos {s : List Char} {n : Nat}
    (h : matchOp s = some n) : 0 < n := by
  unfold matchOp at h
  split at h
  · exact absurd h (by simp)
  · split at h
    · split at h
      · injection h with h; omega
      · split at h
        · injection h with h; omega
        · exact absurd h (by simp)
    · split at h
      · injection h with h; omega
      · exact absurd h (by simp)

theorem matchPunct_pos {s : List Char} {n : Nat}
    (h : matchPunct s = some n) : 0 < n := by
  unfold matchPunct at h
  split at h
  · exact absurd h (by simp)
  · split at h
    · injection h with h; omega
    · exact absurd h (by simp)

theorem matchMismatch_pos {s : List Char} {n : Nat}
    (h : matchMismatch s = some n) : 0 < n := by
  unfold matchMismatch at h
  split at h
  · exact absurd h (by simp)
  · split at h
    · exact absurd h (by simp)
    · injection h with h; omega

/-- Every successful anchored match consumes at least one character, and
only a nonempty suffix can match. -/
theorem masterMatch_pos {s : List Char} {c : Cat} {n : Nat}
    (h : masterMatch s = some (c, n)) : 0 < n ∧ s ≠ [] := by
  have hne : s ≠ [] := by
    intro he
    subst he
    rw [show masterMatch [] = none from rfl] at h
    cases h
  refine ⟨?_, hne⟩
  unfold masterMatch at h
  split at h
  next n1 h1 => injection h with h; cases h; exact matchNumber_pos h1
  split at h
  next n1 h1 => injection h with h; cases h; exact matchId_pos h1
  split at h
  next n1 h1 => injection h with h; cases h; exact matchString_pos h1
  split at h
  next n1 h1 => injection h with h; cases h; exact matchComment_pos h1
  split at h
  next n1 h1 => injection h with h; cases h; exact matchNewline_pos h1
  split at h
  next n1 h1 => injection h with h; cases h; exact matchSkip_pos h1
  split at h
  next n1 h1 => injection h with h; cases h; exact matchOp_pos h1
  split at h
  next n1 h1 => injection h with h; cases h; exact matchPunct_pos h1
  split at h
  next n1 h1 => injection h with h; cases h; exact matchMismatch_pos h1
  cases h

theorem take_ne_nil_of_pos {s : List Char} {n : Nat}
    (hn : 0 < n) (hs : s ≠ []) : s.take n ≠ [] := by
  cases s with
  | nil => exact absurd rfl hs
  | cons a t => cases n with
    | zero => omega
    | succ m => simp

/-- On an error-free scan, the concatenation of all token texts is the
input with whitespace and comment lexemes deleted. -/
theorem tokenizeF_concat (fuel : Nat) :
    ∀ (rest : List Char) (pos line ls : Nat) (toks : List Token),
    tokenizeF fuel rest pos line ls = (toks, none) →
    concatValues toks = strippedF fuel rest := by
  induction fuel with
  | zero =>
    intro rest pos line ls toks h
    simp only [tokenizeF] at h
    injection h with h1 h2
    subst h1
    simp [concatValues, strippedF]
  | succ fuel ih =>
    intro rest pos line ls toks h
    cases hm : masterMatch rest with
    | none =>
      simp only [tokenizeF, hm] at h
      injection h with h1 h2
      subst h1
      simp [concatValues, strippedF, hm]
    | some p =>
      obtain ⟨kind, n⟩ := p
      simp only [tokenizeF, hm] at h
      simp only [strippedF, hm]
      cases kind with
      | NEWLINE => exact ih _ _ _ _ _ h
      | SKIP => exact ih _ _ _ _ _ h
      | COMMENT => exact ih _ _ _ _ _ h
      | MISMATCH => injection h with h1 h2; cases h2
      | ID =>
        injection h with h1 h2
        subst h1
        have hp : tokenizeF fuel (rest.drop n) (pos + n) line ls =
            ((tokenizeF fuel (rest.drop n) (pos + n) line ls).1, none) := by
          rw [← h2]
        simp only [concatValues]
        rw [ih _ _ _ _ _ hp]
      | NUMBER =>
        injection h with h1 h2
        subst h1
        have hp : tokenizeF fuel (rest.drop n) (pos + n) line ls =
            ((tokenizeF fuel (rest.drop n) (pos + n) line ls).1, none) := by
          rw [← h2]
        simp only [concatValues]
        rw [ih _ _ _ _ _ hp]
      | STRING =>
        injection h with h1 h2
        subst h1
        have hp : tokenizeF fuel (rest.drop n) (pos + n) line ls =
            ((tokenizeF fuel (rest.drop n) (pos + n) line ls).1, none) := by
          rw [← h2]
        simp only [concatValues]
        rw [ih _ _ _ _ _ hp]
      | OP =>
        injection h with h1 h2
        subst h1
        have hp : tokenizeF fuel (rest.drop n) (pos + n) line ls =
            ((tokenizeF fuel (rest.drop n) (pos + n) line ls).1, none) := by
          rw [← h2]
        simp only [concatValues]
        rw [ih _ _ _ _ _ hp]
      | PUNCT =>
        injection h with h1 h2
        subst h1
        have hp : tokenizeF fuel (rest.drop n) (pos + n) line ls =
            ((tokenizeF fuel (rest.drop n) (pos + n) line ls).1, none) := by
          rw [← h2]
        simp only [concatValues]
        rw [ih _ _ _ _ _ hp]

/-- Structure of the scan result: on success the token list is a body of
emitted tokens followed by exactly one terminal EOF token with empty text;
on error it consists of emitted tokens only. -/
theorem tokenizeF_shape (fuel : Nat) :
    ∀ (rest : List Char) (pos line ls : Nat),
    (∃ body l c,
      (tokenizeF fuel rest pos line ls).1 = body ++ [Token.mk "EOF" [] l c] ∧
      (tokenizeF fuel rest pos line ls).2 = none ∧
      ∀ t ∈ body, emittedTok t) ∨
    ((tokenizeF fuel rest pos line ls).2 ≠ none ∧
      ∀ t ∈ (tokenizeF fuel rest pos line ls).1, emittedTok t) := by
  induction fuel with
  | zero =>
    intro rest pos line ls
    exact Or.inl ⟨[], line, pos - ls + 1, by simp [tokenizeF], by simp [tokenizeF], by simp⟩
  | succ fuel ih =>
    intro rest pos line ls
    cases hm : masterMatch rest with
    | none =>
      exact Or.inl ⟨[], line, pos - ls + 1, by simp [tokenizeF, hm], by simp [tokenizeF, hm],
        by simp⟩
    | some p =>
      obtain ⟨kind, n⟩ := p
      obtain ⟨hn, hrest⟩ := masterMatch_pos hm
      have hval : rest.take n ≠ [] := take_ne_nil_of_pos hn hrest
      cases kind with
      | NEWLINE => simpa only [tokenizeF, hm] using ih (rest.drop n) (pos + n) (line + 1) (pos + n)
      | SKIP => simpa only [tokenizeF, hm] using ih (rest.drop n) (pos + n) line ls
      | COMMENT => simpa only [tokenizeF, hm] using ih (rest.drop n) (pos + n) line ls
      | MISMATCH =>
        refine Or.inr ⟨?_, ?_⟩
        · simp [tokenizeF, hm]
        · simp [tokenizeF, hm]
      | ID =>
        have het : emittedTok (Token.mk
            (if KEYWORDS.contains (rest.take n) then "KEYWORD" else "IDENT")
            (rest.take n) line (pos - ls + 1)) := by
          by_cases hk : KEYWORDS.contains (rest.take n)
          · refine ⟨Or.inl (by simpa using hk), by simpa [hk] using hval, ?_⟩
            intro _
            simp [hk]
          · refine ⟨Or.inr (Or.inl (by simpa using hk)), by simpa [hk] using hval, ?_⟩
            intro _
            simp [hk]
        rcases ih (rest.drop n) (pos + n) line ls with ⟨body, l, c, h1, h2, h3⟩ | ⟨h1, h2⟩
        · refine Or.inl ⟨Token.mk
            (if KEYWORDS.contains (rest.take n) then "KEYWORD" else "IDENT")
            (rest.take n) line (pos - ls + 1) :: body, l, c, ?_, ?_, ?_⟩
          · simp only [tokenizeF, hm]
            simp [h1]
          · simp only [tokenizeF, hm]
            exact h2
          · intro t ht
            rcases List.mem_cons.mp ht with rfl | ht
            · exact het
            · exact h3 t ht
        · refine Or.inr ⟨?_, ?_⟩
          · simp only [tokenizeF, hm]
            exact h1
          · simp only [tokenizeF, hm]
            intro t ht
            rcases List.mem_cons.mp ht with rfl | ht
            · exact het
            · exact h2 t ht
      | NUMBER =>
        have het : emittedTok (Token.mk "NUMBER" (rest.take n) line (pos - ls + 1)) :=
          ⟨by simp, hval, by intro hh; simp at hh⟩
        rcases ih (rest.drop n) (pos + n) line ls with ⟨body, l, c, h1, h2, h3⟩ | ⟨h1, h2⟩
        · refine Or.inl ⟨Token.mk "NUMBER" (rest.take n) line (pos - ls + 1) :: body, l, c,
            by simp only [tokenizeF, hm]; simp [h1], by simp only [tokenizeF, hm]; exact h2, ?_⟩
          intro t ht
          rcases List.mem_cons.mp ht with rfl | ht
          · exact het
          · exact h3 t ht
        · refine Or.inr ⟨by simp only [tokenizeF, hm]; exact h1, ?_⟩
          simp only [tokenizeF, hm]
          intro t ht
          rcases List.mem_cons.mp ht with rfl | ht
          · exact het
          · exact h2 t ht
      | STRING =>
        have het : emittedTok (Token.mk "STRING" (rest.take n) line (pos - ls + 1)) :=
          ⟨by simp, hval, by intro hh; simp at hh⟩
        rcases ih (rest.drop n) (pos + n) line ls with ⟨body, l, c, h1, h2, h3⟩ | ⟨h1, h2⟩
        · refine Or.inl ⟨Token.mk "STRING" (rest.take n) line (pos - ls + 1) :: body, l, c,
            by simp only [tokenizeF, hm]; simp [h1], by simp only [tokenizeF, hm]; exact h2, ?_⟩
          intro t ht
          rcases List.mem_cons.mp ht with rfl | ht
          · exact het
          · exact h3 t ht
        · refine Or.inr ⟨by simp only [tokenizeF, hm]; exact h1, ?_⟩
          simp only [tokenizeF, hm]
          intro t ht
          rcases List.mem_cons.mp ht with rfl | ht
          · exact het
          · exact h2 t ht
      | OP =>
        have het : emittedTok (Token.mk "OP" (rest.take n) line (pos - ls + 1)) :=
          ⟨by simp, hval, by intro hh; simp at hh⟩
        rcases ih (rest.drop n) (pos + n) line ls with ⟨body, l, c, h1, h2, h3⟩ | ⟨h1, h2⟩
        · refine Or.inl ⟨Token.mk "OP" (rest.take n) line (pos - ls + 1) :: body, l, c,
            by simp only [tokenizeF, hm]; simp [h1], by simp only [tokenizeF, hm]; exact h2, ?_⟩
          intro t ht
          rcases List.mem_cons.mp ht with rfl | ht
          · exact het
          · exact h3 t ht
        · refine Or.inr ⟨by simp only [tokenizeF, hm]; exact h1, ?_⟩
          simp only [tokenizeF, hm]
          intro t ht
          rcases List.mem_cons.mp ht with rfl | ht
          · exact het
          · exact h2 t ht
      | PUNCT =>
        have het : emittedTok (Token.mk "PUNCT" (rest.take n) line (pos - ls + 1)) :=
          ⟨by simp, hval, by intro hh; simp at hh⟩
        rcases ih (rest.drop n) (pos + n) line ls with ⟨body, l, c, h1, h2, h3⟩ | ⟨h1, h2⟩
        · refine Or.inl ⟨Token.mk "PUNCT" (rest.take n) line (pos - ls + 1) :: body, l, c,
            by simp only [tokenizeF, hm]; simp [h1], by simp only [tokenizeF, hm]; exact h2, ?_⟩
          intro t ht
          rcases List.mem_cons.mp ht with rfl | ht
          · exact het
          · exact h3 t ht
        · refine Or.inr ⟨by simp only [tokenizeF, hm]; exact h1, ?_⟩
          simp only [tokenizeF, hm]
          intro t ht
          rcases List.mem_cons.mp ht with rfl | ht
          · exact het
          · exact h2 t ht

/-- The scan errors exactly on a MISMATCH step: the error component is
`none` iff no anchored match of the scan is by the MISMATCH category. -/
theorem tokenizeF_error_iff (fuel : Nat) :
    ∀ (rest : List Char) (pos line ls : Nat),
    (tokenizeF fuel rest pos line ls).2 = none ↔ noMismatchF fuel rest = true := by
  induction fuel with
  | zero =>
    intro rest pos line ls
    simp [tokenizeF, noMismatchF]
  | succ fuel ih =>
    intro rest pos line ls
    cases hm : masterMatch rest with
    | none => simp [tokenizeF, noMismatchF, hm]
    | some p =>
      obtain ⟨kind, n⟩ := p
      cases kind with
      | NEWLINE => simpa only [tokenizeF, noMismatchF, hm] using ih (rest.drop n) (pos + n) (line + 1) (pos + n)
      | SKIP => simpa only [tokenizeF, noMismatchF, hm] using ih (rest.drop n) (pos + n) line ls
      | COMMENT => simpa only [tokenizeF, noMismatchF, hm] using ih (rest.drop n) (pos + n) line ls
      | MISMATCH => simp [tokenizeF, noMismatchF, hm]
      | ID => simpa only [tokenizeF, noMismatchF, hm] using ih (rest.drop n) (pos + n) line ls
      | NUMBER => simpa only [tokenizeF, noMismatchF, hm] using ih (rest.drop n) (pos + n) line ls
      | STRING => simpa only [tokenizeF, noMismatchF, hm] using ih (rest.drop n) (pos + n) line ls
      | OP => simpa only [tokenizeF, noMismatchF, hm] using ih (rest.drop n) (pos + n) line ls
      | PUNCT => simpa only [tokenizeF, noMismatchF, hm] using ih (rest.drop n) (pos + n) line ls

/-- Every token of the scan result carries a 1-based line and column,
provided the incoming line counter is 1-based (it starts at 1 and is only
ever incremented). -/
theorem tokenizeF_pos_positions (fuel : Nat) :
    ∀ (rest : List Char) (pos line ls : Nat), 1 ≤ line →
    ∀ t ∈ (tokenizeF fuel rest pos line ls).1, 1 ≤ t.line ∧ 1 ≤ t.column := by
  induction fuel with
  | zero =>
    intro rest pos line ls hline t ht
    simp only [tokenizeF, List.mem_singleton] at ht
    subst ht
    exact ⟨hline, Nat.le_add_left 1 _⟩
  | succ fuel ih =>
    intro rest pos line ls hline t ht
    cases hm : masterMatch rest with
    | none =>
      simp only [tokenizeF, hm, List.mem_singleton] at ht
      subst ht
      exact ⟨hline, Nat.le_add_left 1 _⟩
    | some p =>
      obtain ⟨kind, n⟩ := p
      cases kind with
      | NEWLINE =>
        simp only [tokenizeF, hm] at ht
        exact ih (rest.drop n) (pos + n) (line + 1) (pos + n) (by omega) t ht
      | SKIP =>
        simp only [tokenizeF, hm] at ht
        exact ih (rest.drop n) (pos + n) line ls hline t ht
      | COMMENT =>
        simp only [tokenizeF, hm] at ht
        exact ih (rest.drop n) (pos + n) line ls hline t ht
      | MISMATCH => simp [tokenizeF, hm] at ht
      | ID =>
        simp only [tokenizeF, hm, List.mem_cons] at ht
        rcases ht with rfl | ht
        · exact ⟨hline, Nat.le_add_left 1 _⟩
        · exact ih (rest.drop n) (pos + n) line ls hline t ht
      | NUMBER =>
        simp only [tokenizeF, hm, List.mem_cons] at ht
        rcases ht with rfl | ht
        · exact ⟨hline, Nat.le_add_left 1 _⟩
        · exact ih (rest.drop n) (pos + n) line ls hline t ht
      | STRING =>
        simp only [tokenizeF, hm, List.mem_cons] at ht
        rcases ht with rfl | ht
        · exact ⟨hline, Nat.le_add_left 1 _⟩
        · exact ih (rest.drop n) (pos + n) line ls hline t ht
      | OP =>
        simp only [tokenizeF, hm, List.mem_cons] at ht
        rcases ht with rfl | ht
        · exact ⟨hline, Nat.le_add_left 1 _⟩
        · exact ih (rest.drop n) (pos + n) line ls hline t ht
      | PUNCT =>
        simp only [tokenizeF, hm, List.mem_cons] at ht
        rcases ht with rfl | ht
        · exact ⟨hline, Nat.le_add_left 1 _⟩
        · exact ih (rest.drop n) (pos + n) line ls hline t ht

theorem concatValues_append (a b : List Token) :
    concatValues (a ++ b) = concatValues a ++ concatValues b := by
  induction a with
  | nil => simp [concatValues]
  | cons t ts ih => simp [concatValues, ih]

/-- Every non-EOF token kind differs from "EOF". -/
theorem emittedTok_type_ne_eof {t : Token} (h : emittedTok t) : t.type ≠ "EOF" := by
  rcases h.1 with h1 | h1 | h1 | h1 | h1 | h1 <;> rw [h1] <;> decide

/-- The anchored master match at a double quote that does not begin a
complete string literal falls through every category down to MISMATCH
(no other category's pattern can start with `"`). -/
theorem masterMatch_quote {t : List Char} (h : matchString ('"' :: t) = none) :
    masterMatch ('"' :: t) = some (Cat.MISMATCH, 1) := by
  unfold masterMatch
  rw [h]
  cases t with
  | nil => rfl
  | cons b t2 => rfl

/-- C1, as stated, fails: on the error-free input `"a b"` (a string
literal containing a space) the concatenation of the non-EOF token texts
keeps the space inside the STRING token, so it differs from the input
with all whitespace characters deleted (the input has no comments). -/
theorem C1_counterexample :
    (tokenize ['"', 'a', ' ', 'b', '"']).2 = none ∧
    concatValues (((tokenize ['"', 'a', ' ', 'b', '"']).1).filter
      (fun t => t.type != "EOF")) ≠
      (['"', 'a', ' ', 'b', '"'].filter
        (fun c => !(c == ' ' || c == '\t' || c == '\r' || c == '\n'))) := by
  exact ⟨by decide, by decide⟩

/-- C1 (amended): for every input whose scan completes without error,
concatenating the texts of all emitted tokens except the terminal EOF
token, in emission order, yields exactly the original input with the
lexemes matched by the whitespace categories (NEWLINE, SKIP) and the
COMMENT category deleted — whitespace characters inside string literals
are part of STRING token texts and are kept. -/
theorem C1_meaningful_roundtrip (code : List Char) (toks : List Token)
    (h : tokenize code = (toks, none)) :
    concatValues (toks.filter (fun t => t.type != "EOF")) = strippedInput code := by
  have htoks : (tokenizeF code.length code 0 1 0).1 = toks := by
    rw [show tokenizeF code.length code 0 1 0 = (toks, none) from h]
  have herr : (tokenizeF code.length code 0 1 0).2 = none := by
    rw [show tokenizeF code.length code 0 1 0 = (toks, none) from h]
  rcases tokenizeF_shape code.length code 0 1 0 with ⟨body, l, c, h1, h2, h3⟩ | ⟨h1, h2⟩
  · have hb : toks = body ++ [Token.mk "EOF" [] l c] := by rw [← htoks, h1]
    have hfilter : toks.filter (fun t => t.type != "EOF") = body := by
      rw [hb, List.filter_append]
      have hself : body.filter (fun t => t.type != "EOF") = body :=
        List.filter_eq_self.mpr (fun t ht => by
          simpa [bne_iff_ne] using emittedTok_type_ne_eof (h3 t ht))
      rw [hself]
      simp
    have hc : concatValues toks = strippedF code.length code :=
      tokenizeF_concat _ _ _ _ _ _ h
    have hbc : concatValues toks = concatValues body := by
      rw [hb, concatValues_append]
      simp [concatValues]
    rw [hfilter, ← hbc, hc]
    rfl
  · exact absurd herr h1

theorem C1_meaningful_roundtrip_witness :
    concatValues (((tokenize ['i', 'f', ' ', 'x']).1).filter
      (fun t => t.type != "EOF")) = strippedInput ['i', 'f', ' ', 'x'] :=
  C1_meaningful_roundtrip ['i', 'f', ' ', 'x'] (tokenize ['i', 'f', ' ', 'x']).1
    (by decide)

/-- C2: the scanner does NOT advance its line counter for line feeds
embedded in a block comment (`line`/`line_start` change only on a
standalone NEWLINE match), so on the input `/*\n*/x` the token after the
comment is reported at line 1, column 6 — not at line 2, column 3 as the
claim requires.  This records the actual behavior of the code at the
failing input. -/
theorem C2_comment_newline_not_counted :
    tokenize ['/', '*', '\n', '*', '/', 'x'] =
      ([Token.mk "IDENT" ['x'] 1 6, Token.mk "EOF" [] 1 7], none) := by
  decide

/-- C3: on every input all of whose scan steps match a non-MISMATCH
category, the scan runs to completion without error (the embedding is a
total function, so termination is by construction) and the last emitted
token is an EOF token with empty text. -/
theorem C3_terminates_with_eof (code : List Char) (h : noMismatch code = true) :
    (tokenize code).2 = none ∧
    ∃ l c, (tokenize code).1.getLast? = some (Token.mk "EOF" [] l c) := by
  have herr : (tokenize code).2 = none := (tokenizeF_error_iff _ _ _ _ _).mpr h
  refine ⟨herr, ?_⟩
  rcases tokenizeF_shape code.length code 0 1 0 with ⟨body, l, c, h1, h2, h3⟩ | ⟨h1, h2⟩
  · refine ⟨l, c, ?_⟩
    rw [show (tokenize code).1 = body ++ [Token.mk "EOF" [] l c] from h1]
    simp [List.getLast?_concat]
  · exact absurd herr h1

theorem C3_terminates_with_eof_witness :
    noMismatch ['x'] = true ∧
    ((tokenize ['x']).2 = none ∧
      ∃ l c, (tokenize ['x']).1.getLast? = some (Token.mk "EOF" [] l c)) :=
  ⟨by decide, C3_terminates_with_eof ['x'] (by decide)⟩

/-- C4: the only error the scanner can raise is `unexpectedCharacter`
with a character, line and column (the error type has no other
constructor); the error occurs exactly when a scan step matches the
MISMATCH category; and on the input `@` the scanner raises
`unexpectedCharacter '@' 1 1` having emitted no tokens before it. -/
theorem C4_error_policy :
    tokenize ['@'] = ([], some (LexError.unexpectedCharacter '@' 1 1)) ∧
    (∀ e : LexError, ∃ ch l col, e = LexError.unexpectedCharacter ch l col) ∧
    (∀ code : List Char, (tokenize code).2 = none ↔ noMismatch code = true) := by
  refine ⟨by decide, fun e => ?_, fun code => tokenizeF_error_iff _ _ _ _ _⟩
  cases e with
  | unexpectedCharacter ch l col => exact ⟨ch, l, col, rfl⟩

/-- C5: two-character operators take priority over one-character
operators at the same position: `->` scans as one OP token `->` followed
only by EOF, and `==` scans as one OP token `==` followed only by EOF. -/
theorem C5_two_char_priority :
    tokenize ['-', '>'] =
      ([Token.mk "OP" ['-', '>'] 1 1, Token.mk "EOF" [] 1 3], none) ∧
    tokenize ['=', '='] =
      ([Token.mk "OP" ['=', '='] 1 1, Token.mk "EOF" [] 1 3], none) := by
  exact ⟨by decide, by decide⟩

/-- C6: an identifier-shaped token (kind KEYWORD or IDENT, exactly the
tokens emitted from ID-category matches) has kind KEYWORD iff its exact
text is in `KEYWORDS`, and IDENT otherwise; the input `int x` yields
KEYWORD("int"), IDENT("x"), EOF. -/
theorem C6_keyword_boundary :
    (∀ (code : List Char) (t : Token), t ∈ (tokenize code).1 →
      t.type = "KEYWORD" ∨ t.type = "IDENT" →
      (t.type = "KEYWORD" ↔ KEYWORDS.contains t.value = true)) ∧
    tokenize ['i', 'n', 't', ' ', 'x'] =
      ([Token.mk "KEYWORD" ['i', 'n', 't'] 1 1, Token.mk "IDENT" ['x'] 1 5,
        Token.mk "EOF" [] 1 6], none) := by
  constructor
  · intro code t ht hki
    rcases tokenizeF_shape code.length code 0 1 0 with ⟨body, l, c, h1, h2, h3⟩ | ⟨h1, h2⟩
    · rw [show (tokenize code).1 = body ++ [Token.mk "EOF" [] l c] from h1] at ht
      rcases List.mem_append.mp ht with hb | he
      · exact (h3 t hb).2.2 hki
      · have heq : t = Token.mk "EOF" [] l c := by simpa using he
        subst heq
        rcases hki with hk | hk <;> simp at hk
    · exact (h2 t ht).2.2 hki
  · decide

theorem C6_keyword_boundary_witness :
    (Token.mk "KEYWORD" ['i', 'n', 't'] 1 1).type = "KEYWORD" ↔
      KEYWORDS.contains (Token.mk "KEYWORD" ['i', 'n', 't'] 1 1).value = true :=
  C6_keyword_boundary.1 ['i', 'n', 't', ' ', 'x']
    (Token.mk "KEYWORD" ['i', 'n', 't'] 1 1) (by decide) (by decide)

/-- C7: every emitted token carries a 1-based line and a 1-based column
(column is always `match_start - line_start + 1`, and the line counter
starts at 1 and only ever increases); the input `x\n  y` yields
IDENT("x") at line 1 column 1 and IDENT("y") at line 2 column 3. -/
theorem C7_positions :
    (∀ (code : List Char) (t : Token), t ∈ (tokenize code).1 →
      1 ≤ t.line ∧ 1 ≤ t.column) ∧
    tokenize ['x', '\n', ' ', ' ', 'y'] =
      ([Token.mk "IDENT" ['x'] 1 1, Token.mk "IDENT" ['y'] 2 3,
        Token.mk "EOF" [] 2 4], none) := by
  exact ⟨fun code t ht => tokenizeF_pos_positions _ _ _ _ _ (le_refl 1) t ht,
    by decide⟩

theorem C7_positions_witness :
    1 ≤ (Token.mk "IDENT" ['x'] 1 1).line ∧
      1 ≤ (Token.mk "IDENT" ['x'] 1 1).column :=
  C7_positions.1 ['x', '\n', ' ', ' ', 'y'] (Token.mk "IDENT" ['x'] 1 1)
    (by decide)

/-- C8, as stated, miscounts its own input: the enumerated input
(quote, a, backslash, quote, b, quote) has 6 characters, not 5.  The
scan behavior the claim describes does hold on that input. -/
theorem C8_counterexample :
    tokenize ['"', 'a', '\\', '"', 'b', '"'] =
      ([Token.mk "STRING" ['"', 'a', '\\', '"', 'b', '"'] 1 1,
        Token.mk "EOF" [] 1 7], none) ∧
    ['"', 'a', '\\', '"', 'b', '"'].length ≠ 5 := by
  exact ⟨by decide, by decide⟩

/-- C8 (amended): string literal tokens preserve their raw delimited text
verbatim, quotes and backslash escapes included, with no escape
interpretation: the 6-character input (quote, a, backslash, quote, b,
quote) yields exactly one STRING token whose text is that input
verbatim, followed only by EOF. -/
theorem C8_string_verbatim :
    tokenize ['"', 'a', '\\', '"', 'b', '"'] =
      ([Token.mk "STRING" ['"', 'a', '\\', '"', 'b', '"'] 1 1,
        Token.mk "EOF" [] 1 7], none) := by
  decide

/-- C9: a token's text is empty exactly when it is the terminal EOF
token, and any EOF-typed token is the last token of the scan (so the EOF
token is unique and terminal; tokens emitted before an error all have
nonempty text and are not EOF). -/
theorem C9_nonempty_texts (code : List Char) (t : Token)
    (ht : t ∈ (tokenize code).1) :
    (t.value = [] ↔ t.type = "EOF") ∧
    (t.type = "EOF" → (tokenize code).1.getLast? = some t) := by
  rcases tokenizeF_shape code.length code 0 1 0 with ⟨body, l, c, h1, h2, h3⟩ | ⟨h1, h2⟩
  · rw [show (tokenize code).1 = body ++ [Token.mk "EOF" [] l c] from h1] at ht ⊢
    rcases List.mem_append.mp ht with hb | he
    · have hem := h3 t hb
      refine ⟨⟨fun hv => absurd hv hem.2.1,
        fun htype => absurd htype (emittedTok_type_ne_eof hem)⟩,
        fun htype => absurd htype (emittedTok_type_ne_eof hem)⟩
    · have heq : t = Token.mk "EOF" [] l c := by simpa using he
      subst heq
      exact ⟨by simp, fun _ => by simp [List.getLast?_concat]⟩
  · have hem := h2 t ht
    refine ⟨⟨fun hv => absurd hv hem.2.1,
      fun htype => absurd htype (emittedTok_type_ne_eof hem)⟩,
      fun htype => absurd htype (emittedTok_type_ne_eof hem)⟩

theorem C9_nonempty_texts_witness :
    ((Token.mk "IDENT" ['x'] 1 1).value = [] ↔
      (Token.mk "IDENT" ['x'] 1 1).type = "EOF") ∧
    ((Token.mk "IDENT" ['x'] 1 1).type = "EOF" →
      (tokenize ['x']).1.getLast? = some (Token.mk "IDENT" ['x'] 1 1)) :=
  C9_nonempty_texts ['x'] (Token.mk "IDENT" ['x'] 1 1) (by decide)

/-- C10, as stated, fails: the input `// "` contains a double quote that
does not begin a complete string literal (no closing quote before end of
input), yet the scanner never attempts a match at it — the quote is
consumed by the COMMENT match — so no error is raised at all and the scan
completes with only the EOF token. -/
theorem C10_counterexample :
    matchString ['"'] = none ∧
    tokenize ['/', '/', ' ', '"'] = ([Token.mk "EOF" [] 1 5], none) := by
  exact ⟨by decide, by decide⟩

/-- C10 (amended): whenever the scanner attempts its anchored match at a
position holding a double quote that does not begin a complete string
literal (the STRING pattern fails there), the match falls through to
MISMATCH and the scanner raises `unexpectedCharacter` with character `"`
and the current line and column; the quote is not emitted as a token and
no distinct unterminated-string error exists.  Quote positions the
scanner never reaches (e.g. inside comments) raise nothing. -/
theorem C10_unterminated_quote (fuel : Nat) (t : List Char) (pos line ls : Nat)
    (h : matchString ('"' :: t) = none) :
    tokenizeF (fuel + 1) ('"' :: t) pos line ls =
      ([], some (LexError.unexpectedCharacter '"' line (pos - ls + 1))) := by
  have hq := masterMatch_quote h
  simp [tokenizeF, hq]

theorem C10_unterminated_quote_witness :
    tokenizeF 1 ['"'] 0 1 0 =
      ([], some (LexError.unexpectedCharacter '"' 1 1)) :=
  C10_unterminated_quote 0 [] 0 1 0 (by decide)

end Lexical
